import Mathlib

/-!
Verification of the html-to-image resource-embedding pipeline.

This file gives a shallow embedding, over `List Char`, of the
resource-embedding core of the repository:

* `getBlobFromURL.ts` — the deduplicating resource cache
  (`getCacheKey`, `getBlobFromURL`, the `failed` placeholder path);
* `embedWebFonts.ts` — the style-sheet fetch cache (`fetchCSS`), the font
  embedding orchestrator (`embedFonts`, modelled as text-rewrite
  operations over a shared buffer), the regex-driven CSS rule extractor
  (`parseCSS`), and the font-rule pipeline (`parseWebFontRules`,
  `getWebFontCSS`);
* `util.ts` — `resolveUrl`, `parseDataUrlContent`.

JavaScript strings are modelled as `List Char`.  Promises are modelled by
their settled values; the process-wide cache maps are modelled as explicit
association lists threaded through the operations, together with the list
of network requests actually issued.  Network and DOM effects are
abstracted as explicit oracle functions passed to each operation.
JavaScript regular expressions are interpreted by a small backtracking
matcher (`mrun`) over a regex syntax tree `Rx`, with greedy/lazy
quantifier priority matching the JS semantics; the concrete regex
literals of the source are transcribed into `Rx` values.
-/

/-- JS line terminators: `.` in a JS regex matches any character except
these four. -/
def isLineTerm (c : Char) : Bool :=
  c = '\n' || c = '\r' || c = '\u2028' || c = '\u2029'

/-- Characters matched by `\s` in a JS regex. -/
def isJsSpace (c : Char) : Bool :=
  c = ' ' || c = '\t' || c = '\n' || c = '\r' || c = '\x0b' || c = '\x0c' ||
  c = '\u00a0' || c = '\u1680' || (decide ('\u2000' ≤ c) && decide (c ≤ '\u200a')) ||
  c = '\u2028' || c = '\u2029' || c = '\u202f' || c = '\u205f' ||
  c = '\u3000' || c = '\ufeff'

/-- Characters matched by `\w` in a JS regex. -/
def isWordChar (c : Char) : Bool :=
  (decide ('a' ≤ c) && decide (c ≤ 'z')) || (decide ('A' ≤ c) && decide (c ≤ 'Z')) ||
  (decide ('0' ≤ c) && decide (c ≤ '9')) || c = '_'

/-- First-association lookup in an association list, the model of reading
a JS object used as a map (`cache[key]`). -/
def assocFind {β : Type} (key : List Char) : List (List Char × β) → Option β
  | [] => none
  | e :: rest => if e.1 = key then some e.2 else assocFind key rest

/-- JS `String.prototype.split(/,/)`: split at every comma. -/
def splitOnComma : List Char → List (List Char)
  | [] => [[]]
  | c :: rest =>
    if c = ',' then [] :: splitOnComma rest
    else
      match splitOnComma rest with
      | x :: xs => (c :: x) :: xs
      | [] => [[c]]

/-- Model of `parseDataUrlContent` from `util.ts`: `dataURL.split(/,/)[1]`, i.e.
the segment between the first and the second comma (empty when absent,
modelling JS `undefined` flowing into a string position). -/
def parseDataUrlContent (dataURL : List Char) : List Char :=
  (splitOnComma dataURL).getD 1 []

/-- Locate the first occurrence of `pat` in a text, returning the parts
before and after it; `none` when `pat` does not occur.  This is the
search step of JS `String.prototype.replace` with a string pattern. -/
def splitFirst (pat : List Char) : List Char → Option (List Char × List Char)
  | [] => if pat = [] then some ([], []) else none
  | c :: rest =>
    if pat <+: (c :: rest) then some ([], (c :: rest).drop pat.length)
    else
      match splitFirst pat rest with
      | some pq => some (c :: pq.1, pq.2)
      | none => none

/-- JS `s.replace(pat, rep)` with a plain-string pattern: replace the
first occurrence of `pat` only; return `s` unchanged when `pat` does not
occur. -/
def replaceFirst (s pat rep : List Char) : List Char :=
  match splitFirst pat s with
  | none => s
  | some pq => pq.1 ++ rep ++ pq.2

/-- Apply a sequence of first-occurrence substitutions to a shared text
buffer, in the given order.  This models the shared mutable `cssText`
buffer of `embedFonts` under a given completion order of the rewrite
tasks. -/
def rewriteAll (css : List Char) (subs : List (List Char × List Char)) : List Char :=
  subs.foldl (fun t lp => replaceFirst t lp.1 lp.2) css

/-- Model of `url.replace(/\?.*/, '')` from `getCacheKey`: remove the first `?`
and everything after it up to (not including) the next line terminator
(JS `.` does not match line terminators; without the `g` flag only the
first match is removed). -/
def stripQuery : List Char → List Char
  | [] => []
  | c :: rest =>
    if c = '?' then rest.dropWhile (fun d => !(isLineTerm d))
    else c :: stripQuery rest

/-- The text after the last `/` of a single line. -/
def afterLastSlash (line : List Char) : List Char :=
  (line.reverse.takeWhile (fun c => c != '/')).reverse

/-- Worker for `key.replace(/.*\//, '')`: the first match of `/.*\//` is
found on the first line that contains a `/`, and spans from the start of
that line to its last `/`; lines are separated by JS line terminators. -/
def stripGo : Nat → List Char → List Char
  | _, [] => []
  | 0, s => s
  | fuel + 1, s =>
    let line := s.takeWhile (fun c => !(isLineTerm c))
    let rest := s.dropWhile (fun c => !(isLineTerm c))
    if '/' ∈ line then afterLastSlash line ++ rest
    else
      match rest with
      | [] => s
      | t :: r2 => line ++ t :: stripGo fuel r2

/-- Model of `key.replace(/.*\//, '')` from `getCacheKey`. -/
def stripToLastSlash (s : List Char) : List Char :=
  stripGo s.length s

/-- Model of `/ttf|otf|eot|woff2?/i.test(key)`: the key contains one of the font
tokens anywhere, case-insensitively (`woff2?` succeeds whenever `woff`
occurs). -/
def fontLike (key : List Char) : Bool :=
  let lk := key.map Char.toLower
  decide ("ttf".toList <:+: lk) || decide ("otf".toList <:+: lk) ||
  decide ("eot".toList <:+: lk) || decide ("woff".toList <:+: lk)

/-- Model of `getCacheKey` from `getBlobFromURL.ts`: strip the query string unless
`includeQueryParams`; for keys passing the font test, keep only the text
after the last slash. -/
def getCacheKey (url : List Char) (includeQueryParams : Bool) : List Char :=
  let key := if includeQueryParams then url else stripQuery url
  if fontLike key then stripToLastSlash key else key

/-- Syntax of the JS regex fragment used by the source: character tests,
concatenation, alternation, greedy star and lazy star. -/
inductive Rx : Type where
  | eps : Rx
  | ch : (Char → Bool) → Rx
  | seq : Rx → Rx → Rx
  | alt : Rx → Rx → Rx
  | starG : Rx → Rx
  | starL : Rx → Rx

/-- Backtracking matcher in continuation-passing style.  `mrun fuel rx s k`
tries to match a prefix of `s` against `rx` and passes each candidate
remainder to `k`, in the priority order of a JS engine (alternation
left-first, greedy star longest-first, lazy star shortest-first; a star
iteration that consumes nothing stops the repetition, as in JS).  The
first remainder accepted by `k` wins.  `fuel` only bounds recursion
depth; it is chosen large enough by the callers below. -/
def mrun : Nat → Rx → List Char → (List Char → Option (List Char)) → Option (List Char)
  | 0, _, _, _ => none
  | _ + 1, Rx.eps, s, k => k s
  | _ + 1, Rx.ch p, s, k =>
    match s with
    | [] => none
    | c :: rest => if p c then k rest else none
  | fuel + 1, Rx.seq a b, s, k => mrun fuel a s (fun s1 => mrun fuel b s1 k)
  | fuel + 1, Rx.alt a b, s, k =>
    (mrun fuel a s k).orElse (fun _ => mrun fuel b s k)
  | fuel + 1, Rx.starG a, s, k =>
    (mrun fuel a s (fun s1 =>
      if s1.length < s.length then mrun fuel (Rx.starG a) s1 k else k s1)).orElse
      (fun _ => k s)
  | fuel + 1, Rx.starL a, s, k =>
    (k s).orElse (fun _ => mrun fuel a s (fun s1 =>
      if s1.length < s.length then mrun fuel (Rx.starL a) s1 k else none))

/-- Structural size of a regex, used to budget matcher fuel. -/
def rxSize : Rx → Nat
  | Rx.eps => 1
  | Rx.ch _ => 1
  | Rx.seq a b => rxSize a + rxSize b + 1
  | Rx.alt a b => rxSize a + rxSize b + 1
  | Rx.starG a => rxSize a + 1
  | Rx.starL a => rxSize a + 1

/-- Fuel budget: generous bound on the matcher recursion depth (which
grows with consumed characters and regex structure only, since each
continuation restarts from the fuel captured at its creation). -/
def rxFuel (rx : Rx) (s : List Char) : Nat :=
  4 * s.length + 8 * rxSize rx + 64

/-- Match `rx` against a prefix of `s`; return the length of the
preferred (JS-semantics) match. -/
def matchAt (rx : Rx) (s : List Char) : Option Nat :=
  match mrun (rxFuel rx s) rx s (fun rest => some rest) with
  | some rest => some (s.length - rest.length)
  | none => none

/-- Model of a `regex.exec` search: try successive start positions, leftmost first;
return (start index, match length) relative to the given suffix. -/
def execSearch (rx : Rx) : List Char → Nat → Option (Nat × Nat)
  | [], i =>
    match matchAt rx [] with
    | some n => some (i, n)
    | none => none
  | s@(_ :: rest), i =>
    match matchAt rx s with
    | some n => some (i, n)
    | none => execSearch rx rest (i + 1)

/-- Model of `String.prototype.replaceAll(rx, '')`: delete every (leftmost,
non-overlapping) match. -/
def removeAllAux (rx : Rx) : Nat → List Char → List Char
  | 0, s => s
  | fuel + 1, s =>
    match matchAt rx s with
    | some n =>
      if n = 0 then
        match s with
        | [] => []
        | c :: r => c :: removeAllAux rx fuel r
      else removeAllAux rx fuel (s.drop n)
    | none =>
      match s with
      | [] => []
      | c :: rest => c :: removeAllAux rx fuel rest

/-- Collect every (leftmost, non-overlapping) match of `rx`, in order:
the `while (true) { regex.exec(...) }` collection loop of `parseCSS`. -/
def collectAllAux (rx : Rx) : Nat → List Char → List (List Char)
  | 0, _ => []
  | fuel + 1, s =>
    match matchAt rx s with
    | some n =>
      if n = 0 then
        match s with
        | [] => []
        | _ :: r => collectAllAux rx fuel r
      else s.take n :: collectAllAux rx fuel (s.drop n)
    | none =>
      match s with
      | [] => []
      | _ :: rest => collectAllAux rx fuel rest

/-- Literal character. -/
def rxLit (c : Char) : Rx := Rx.ch (fun x => x = c)

/-- Case-insensitive literal character (the `i` flag). -/
def rxLitCI (c : Char) : Rx := Rx.ch (fun x => x.toLower = c.toLower)

/-- Literal string. -/
def rxStr : List Char → Rx
  | [] => Rx.eps
  | c :: rest => Rx.seq (rxLit c) (rxStr rest)

/-- Case-insensitive literal string. -/
def rxStrCI : List Char → Rx
  | [] => Rx.eps
  | c :: rest => Rx.seq (rxLitCI c) (rxStrCI rest)

/-- Greedy `+`. -/
def rxPlusG (r : Rx) : Rx := Rx.seq r (Rx.starG r)

/-- Greedy `?`. -/
def rxOpt (r : Rx) : Rx := Rx.alt r Rx.eps

/-- Class `[\s\S]`: any character at all. -/
def rxAny : Rx := Rx.ch (fun _ => true)

/-- Concatenation of a list of regexes. -/
def rxCat (rs : List Rx) : Rx := rs.foldr Rx.seq Rx.eps

/-- Regex `/(\/\*[\s\S]*?\*\/)/gi` — block comments (lazy body). -/
def commentRx : Rx :=
  rxCat [rxLit '/', rxLit '*', Rx.starL rxAny, rxLit '*', rxLit '/']

/-- First character class of the keyframes regex: `[-\w:\w+();\s]`. -/
def kfClass1 (c : Char) : Bool :=
  c = '-' || c = '+' || c = ':' || c = '(' || c = ')' || c = ';' ||
  isWordChar c || isJsSpace c

/-- Second character class of the keyframes regex: `[\w:\w();-\s]`
(the `-` before `\s` is literal in a non-unicode JS regex). -/
def kfClass2 (c : Char) : Bool :=
  c = ':' || c = '(' || c = ')' || c = ';' || c = '-' ||
  isWordChar c || isJsSpace c

/-- The repeated group of the keyframes regex:
`\s?\d%\s?{[-\w:\w+();\s]+}\s?\d+%\s?{[\w:\w();-\s]+` (note: the final
sub-block is left unclosed by the group; the two closing braces are
outside the repetition). -/
def kfGroup : Rx :=
  rxCat [rxOpt (Rx.ch isJsSpace), Rx.ch Char.isDigit, rxLit '%',
    rxOpt (Rx.ch isJsSpace), rxLit '\x7b', rxPlusG (Rx.ch kfClass1),
    rxLit '\x7d', rxOpt (Rx.ch isJsSpace), rxPlusG (Rx.ch Char.isDigit),
    rxLit '%', rxOpt (Rx.ch isJsSpace), rxLit '\x7b', rxPlusG (Rx.ch kfClass2)]

/-- Regex `/@(-moz-|-webkit-|-ms-)*keyframes\s(\S)+(\s?){(...)+}}/gi` from
`parseCSS`. -/
def keyframesRx : Rx :=
  rxCat [rxLit '@',
    Rx.starG (Rx.alt (rxStrCI ("-moz-".toList))
      (Rx.alt (rxStrCI ("-webkit-".toList)) (rxStrCI ("-ms-".toList)))),
    rxStrCI ("keyframes".toList),
    Rx.ch isJsSpace,
    rxPlusG (Rx.ch (fun c => !(isJsSpace c))),
    rxOpt (Rx.ch isJsSpace),
    rxLit '\x7b',
    rxPlusG kfGroup,
    rxLit '\x7d', rxLit '\x7d']

/-- Regex `/@import[\s\S]*?url\([^)]*\)[\s\S]*?;/gi` from `parseCSS`. -/
def importRx : Rx :=
  rxCat [rxStrCI ("@import".toList), Rx.starL rxAny,
    rxStrCI ("url(".toList), Rx.starG (Rx.ch (fun c => c != ')')),
    rxLit ')', Rx.starL rxAny, rxLit ';']

/-- The `@media` arm of the combined CSS regex:
`(\s*?(?:\/\*[\s\S]*?\*\/)?\s*?@media[\s\S]*?){([\s\S]*?)}\s*?}`. -/
def mediaRx : Rx :=
  rxCat [Rx.starL (Rx.ch isJsSpace), rxOpt commentRx,
    Rx.starL (Rx.ch isJsSpace), rxStrCI ("@media".toList),
    Rx.starL rxAny, rxLit '\x7b', Rx.starL rxAny, rxLit '\x7d',
    Rx.starL (Rx.ch isJsSpace), rxLit '\x7d']

/-- Plain-block arm of the combined CSS regex: `([\s\S]*?){([\s\S]*?)}`. -/
def plainBlockRx : Rx :=
  rxCat [Rx.starL rxAny, rxLit '\x7b', Rx.starL rxAny, rxLit '\x7d']

/-- The "unified" regex of `parseCSS`: media arm first, else plain block. -/
def unifiedRx : Rx := Rx.alt mediaRx plainBlockRx

/-- Model of `replaceAll(/\s\s+/gi, ' ')`: any run of two or more whitespace
characters collapses to a single space; an isolated whitespace character
is kept as it is. -/
def collapseGo : Nat → List Char → List Char
  | 0, s => s
  | _ + 1, [] => []
  | fuel + 1, c :: rest =>
    if isJsSpace c then
      match rest with
      | [] => [c]
      | d :: _ =>
        if isJsSpace d then ' ' :: collapseGo fuel (rest.dropWhile isJsSpace)
        else c :: collapseGo fuel rest
    else c :: collapseGo fuel rest

/-- Model of `replaceAll(/\s\s+/gi, ' ')`, with enough fuel for the whole text. -/
def collapseSpaces (s : List Char) : List Char :=
  collapseGo s.length s

/-- The text clean-up steps of `parseCSS`: strip comments, remove `\r`
and `\n`, turn tabs into spaces, collapse whitespace runs. -/
def normalizeCssText (src : List Char) : List Char :=
  let noComments := removeAllAux commentRx (src.length + 1) src
  let noNewlines := noComments.filter (fun c => c != '\r' && c != '\n')
  let noTabs := noNewlines.map (fun c => if c = '\t' then ' ' else c)
  collapseSpaces noTabs

/-- The keyframes collection loop of `parseCSS`. -/
def keyframesMatches (cssText : List Char) : List (List Char) :=
  collectAllAux keyframesRx (cssText.length + 1) cssText

/-- Model of `replaceAll(keyframesRegex, '')` in `parseCSS`. -/
def removeKeyframes (cssText : List Char) : List Char :=
  removeAllAux keyframesRx (cssText.length + 1) cssText

/-- The second scanning loop of `parseCSS`: at each step search for the
next `@import` match from the shared cursor; if there is none anywhere
after the cursor, search for the next unified-regex match; stop when
both fail.  (A success of either regex moves the shared cursor to the
end of its match, mirroring the `lastIndex` juggling of the source.) -/
def cssLoop : Nat → List Char → List (List Char) → List (List Char)
  | 0, _, acc => acc.reverse
  | fuel + 1, s, acc =>
    match execSearch importRx s 0 with
    | some st => cssLoop fuel (s.drop (st.1 + st.2)) ((s.drop st.1).take st.2 :: acc)
    | none =>
      match execSearch unifiedRx s 0 with
      | some st => cssLoop fuel (s.drop (st.1 + st.2)) ((s.drop st.1).take st.2 :: acc)
      | none => acc.reverse

/-- The import/block pass of `parseCSS`, starting with cursor 0. -/
def scanImportsAndBlocks (s : List Char) : List (List Char) :=
  cssLoop (s.length + 1) s []

/-- Model of `parseCSS` from `embedWebFonts.ts`.  A `null`/`undefined` argument is
modelled by `none` and yields `[]`.  Otherwise: clean the text, collect
and delete every keyframes block (first loop), then scan the remaining
text for `@import` statements and media/selector blocks (second loop);
the result list is the keyframes matches followed by the second loop's
matches. -/
def parseCSS (source : Option (List Char)) : List (List Char) :=
  match source with
  | none => []
  | some src =>
    let cssText := normalizeCssText src
    keyframesMatches cssText ++ scanImportsAndBlocks (removeKeyframes cssText)

/-- Content of a `url(...)` occurrence: all characters up to the first
`)`, which must exist (`[^)]+\)`); also returns the text after it. -/
def takeUntilRP : List Char → Option (List Char × List Char)
  | [] => none
  | c :: rest =>
    if c = ')' then some ([], rest)
    else
      match takeUntilRP rest with
      | some pq => some (c :: pq.1, pq.2)
      | none => none

/-- Try to match `/url\([^)]+\)/` at the head of the text; on success
return the whole match and the remaining text. -/
def matchUrlAt : List Char → Option (List Char × List Char)
  | 'u' :: 'r' :: 'l' :: '(' :: rest =>
    (match takeUntilRP rest with
     | some pq =>
       if pq.1 = [] then none
       else some (("url(".toList) ++ pq.1 ++ [')'], pq.2)
     | none => none)
  | _ => none

/-- Worker for `cssText.match(/url\([^)]+\)/g)`: scan left to right,
collecting non-overlapping matches (duplicates included, as `match`
with the `g` flag reports every occurrence). -/
def extractUrlLocsGo : Nat → List Char → List (List Char)
  | 0, _ => []
  | _ + 1, [] => []
  | fuel + 1, s@(_ :: rest) =>
    match matchUrlAt s with
    | some mr => mr.1 :: extractUrlLocsGo fuel mr.2
    | none => extractUrlLocsGo fuel rest

/-- Model of `cssText.match(/url\([^)]+\)/g) || []` — the `fontLocs` of
`embedFonts`. -/
def extractUrlLocs (s : List Char) : List (List Char) :=
  extractUrlLocsGo s.length s

/-- The replacement text written by a completed rewrite task:
`` `url(${reader.result})` ``. -/
def urlWrap (dataUrl : List Char) : List Char :=
  ("url(".toList) ++ dataUrl ++ [')']

/-- The value `embedFonts` returns (and, for a longer completion list,
the final state of its shared buffer).  `dataUrl loc` is the data URL
the `FileReader` produces for the resource fetched for occurrence
`loc`; `completed` lists the occurrences whose rewrite task ran before
the `Promise.race` settled, in completion order.  Each completed task
performs `cssText = cssText.replace(loc, url(dataUrl loc))` on the
shared buffer; tasks not in `completed` (failed fetches, or fetches
still pending at the 5000 ms timeout) contribute nothing.  The model is
total: the race always settles, so `embedFonts` always resolves. -/
def embedFonts (css : List Char) (dataUrl : List Char → List Char)
    (completed : List (List Char)) : List Char :=
  rewriteAll css (completed.map (fun loc => (loc, urlWrap (dataUrl loc))))

/-- Resource metadata produced by `getBlobFromURL` (field `blob` holds
the encoded payload with its data-URL prefix already stripped). -/
structure Metadata : Type where
  blob : List Char
  contentType : List Char
deriving DecidableEq

/-- The recognized option keys of `getBlobFromURL`. -/
structure Options : Type where
  includeQueryParams : Bool
  cacheBust : Bool
  imagePlaceholder : Option (List Char)
deriving DecidableEq

/-- The process-wide state touched by `getBlobFromURL`: the cache map
(association list keyed by cache key, holding each promise's settled
value) and the list of URLs for which a network request was issued. -/
structure BlobState : Type where
  entries : List (List Char × Metadata)
  requests : List (List Char)
deriving DecidableEq

/-- The URL actually requested: `cacheBust` appends the current
timestamp as a query parameter (`&` if the URL already has a `?`,
else `?`); the cache key is computed before this rewrite. -/
def requestUrlOf (url : List Char) (cacheBust : Bool) (timestamp : List Char) : List Char :=
  if cacheBust then url ++ (if '?' ∈ url then ['&'] else ['?']) ++ timestamp
  else url

/-- The `failed` handler of `getBlobFromURL`: resolve (not reject) with
a placeholder whose `blob` is `imagePlaceholder.split(/,/)[1]` when the
option is a non-empty string and that segment is non-empty, else the
empty string; `contentType` is always empty. -/
def failedMeta (imagePlaceholder : Option (List Char)) : Metadata :=
  let placeholder :=
    match imagePlaceholder with
    | some p =>
      if p ≠ [] then
        match (splitOnComma p).get? 1 with
        | some seg => if seg ≠ [] then seg else []
        | none => []
      else []
    | none => []
  { blob := placeholder, contentType := [] }

/-- Model of `getBlobFromURL` from `getBlobFromURL.ts`.  `fetchOracle` abstracts
the network/decode pipeline: applied to the (possibly cache-busted)
request URL it yields `some (dataUrl, contentType)` when the fetch,
blob read and `FileReader` decoding all succeed, and `none` on any
failure (network error, 3000 ms timeout, decode error).  The cache key
is computed from the original URL; on a hit the stored settled value is
returned with no new request; on a miss the outcome (success metadata
or the `failed` placeholder) is stored under the key and one request is
recorded. -/
def getBlobFromURL (url : List Char) (options : Options) (timestamp : List Char)
    (fetchOracle : List Char → Option (List Char × List Char)) (st : BlobState) :
    Metadata × BlobState :=
  let cacheKey := getCacheKey url options.includeQueryParams
  match assocFind cacheKey st.entries with
  | some m => (m, st)
  | none =>
    let url2 := requestUrlOf url options.cacheBust timestamp
    let m :=
      match fetchOracle url2 with
      | some dc => { blob := parseDataUrlContent dc.1, contentType := dc.2 }
      | none => failedMeta options.imagePlaceholder
    (m, ⟨st.entries ++ [(cacheKey, m)], st.requests ++ [url2]⟩)

/-- A sequence of `getBlobFromURL` calls, returning the final state. -/
def runBlobCalls (options : Options) (timestamp : List Char)
    (fetchOracle : List Char → Option (List Char × List Char))
    (urls : List (List Char)) (st : BlobState) : BlobState :=
  urls.foldl (fun s u => (getBlobFromURL u options timestamp fetchOracle s).2) st

/-- The process-wide state of the style-sheet fetch cache
(`cssFetchCache` in `embedWebFonts.ts`), keyed by the exact URL. -/
structure CssFetchState : Type where
  entries : List (List Char × Except (List Char) (List Char))
  requests : List (List Char)

/-- Model of `fetchCSS` from `embedWebFonts.ts`.  `net url` is the settled
outcome of `window.fetch(url)` followed by the body read: `Except.ok`
with the decoded text, or `Except.error` when the fetch rejects.  The
future is stored in the cache unconditionally — before its outcome is
known — so a rejected future is cached exactly like a success and the
URL is never fetched again. -/
def fetchCSS (url : List Char) (net : List Char → Except (List Char) (List Char))
    (st : CssFetchState) : Except (List Char) (List Char) × CssFetchState :=
  match assocFind url st.entries with
  | some r => (r, st)
  | none =>
    let r := net url
    (r, ⟨st.entries ++ [(url, r)], st.requests ++ [url]⟩)

/-- Test `^[a-z]+:\/\//i` — an explicit scheme followed by `://`.  Greedy
`[a-z]+` with no backtracking subtlety, since `:` is not a letter. -/
def schemeAbsTest (url : List Char) : Bool :=
  let letters := url.takeWhile Char.isAlpha
  !(letters.isEmpty) && ("://".toList) <+: url.drop letters.length

/-- Test `^\/\//` — protocol-relative reference. -/
def protoRelTest (url : List Char) : Bool :=
  ("//".toList) <+: url

/-- Test `^[a-z]+:/i` — any explicit scheme (`data:`, `mailto:`, `tel:`, …). -/
def schemeColonTest (url : List Char) : Bool :=
  let letters := url.takeWhile Char.isAlpha
  !(letters.isEmpty) && [':'] <+: url.drop letters.length

/-- Model of `resolveUrl` from `util.ts`.  `proto` is
`window.location.protocol`; `anchorResolve base ref` abstracts ordinary
hyperlink resolution of `ref` against `base` performed inside a freshly
created throwaway document (`document.implementation.createHTMLDocument`),
the host environment's own algorithm.  Total: no error outcome for any
input. -/
def resolveUrl (url : List Char) (baseUrl : Option (List Char)) (proto : List Char)
    (anchorResolve : Option (List Char) → List Char → List Char) : List Char :=
  if schemeAbsTest url then url
  else if protoRelTest url then proto ++ url
  else if schemeColonTest url then url
  else anchorResolve baseUrl url

/-- A CSS rule as seen by `getWebFontRules`: its numeric `type`, the
value of its `src` declaration, and its text. -/
structure StyleRule : Type where
  ruleType : Nat
  srcValue : List Char
  cssText : List Char
deriving DecidableEq

/-- Constant `CSSRule.FONT_FACE_RULE`. -/
def FONT_FACE_RULE : Nat := 5

/-- Model of `getWebFontRules` from `embedWebFonts.ts`: keep the font-face rules
whose `src` passes the external `shouldEmbed` predicate. -/
def getWebFontRules (shouldEmbed : List Char → Bool) (cssRules : List StyleRule) :
    List StyleRule :=
  (cssRules.filter (fun rule => rule.ruleType == FONT_FACE_RULE)).filter
    (fun rule => shouldEmbed rule.srcValue)

/-- Model of `parseWebFontRules` from `embedWebFonts.ts`.  The node's
`ownerDocument` is modelled by `Option` (`none` for `null`): a detached
node rejects immediately with the error below, and the rejection
propagates to the caller (the executor's later `resolve` call is
ignored by the promise).  For an attached node, `getCSSRules` — a
DOM-walking collaborator — is abstracted as the oracle `cssRulesOf`
applied to the document's style sheets. -/
def parseWebFontRules (ownerDocument : Option (List StyleRule))
    (shouldEmbed : List Char → Bool)
    (cssRulesOf : List StyleRule → List StyleRule) :
    Except (List Char) (List StyleRule) :=
  match ownerDocument with
  | none => Except.error ("Provided element is not within a Document".toList)
  | some styleSheets => Except.ok (getWebFontRules shouldEmbed (cssRulesOf styleSheets))

/-- Model of `getWebFontCSS` from `embedWebFonts.ts`: embed resources into each
recovered font-face rule's text (abstracted as `embedRule`) and join
with newlines.  A rejection of `parseWebFontRules` passes through. -/
def getWebFontCSS (ownerDocument : Option (List StyleRule))
    (shouldEmbed : List Char → Bool)
    (cssRulesOf : List StyleRule → List StyleRule)
    (embedRule : StyleRule → List Char) : Except (List Char) (List Char) :=
  (parseWebFontRules ownerDocument shouldEmbed cssRulesOf).map
    (fun rules => List.intercalate ['\n'] (rules.map embedRule))

/-- The placeholder payload as the specification words it: the text
after the *first* comma of the configured placeholder (to be compared
with the code's `split(/,/)[1]`). -/
def afterFirstComma (s : List Char) : List Char :=
  (s.dropWhile (fun c => c != ',')).drop 1

/-- The placeholder content `getBlobFromURL` actually produces on
failure: the second field of the comma-split of the option (empty when
the option is absent or the field is missing or empty). -/
def amendedPlaceholder (imagePlaceholder : Option (List Char)) : List Char :=
  match imagePlaceholder with
  | none => []
  | some p => ((splitOnComma p).get? 1).getD []

theorem assocFind_append_none {β : Type} {key : List Char}
    {l1 : List (List Char × β)} (l2 : List (List Char × β))
    (h : assocFind key l1 = none) :
    assocFind key (l1 ++ l2) = assocFind key l2 := by
  induction l1 with
  | nil => simp
  | cons e rest ih =>
    by_cases he : e.1 = key
    · simp [assocFind, he] at h
    · simp only [assocFind, he, if_false, List.cons_append] at h ⊢
      exact ih h

theorem assocFind_cons_self {β : Type} {key : List Char} (v : β)
    (l : List (List Char × β)) :
    assocFind key ((key, v) :: l) = some v := by
  simp [assocFind]

/-- When no occurrence of `pat` starts before position `pre.length`,
the first occurrence of `pat` in `pre ++ pat ++ post` is the explicit
one. -/
theorem splitFirst_append (pat pre post : List Char) (hne : pat ≠ [])
    (hfirst : ∀ i, i < pre.length → ¬ pat <+: (pre ++ pat ++ post).drop i) :
    splitFirst pat (pre ++ pat ++ post) = some (pre, post) := by
  induction pre with
  | nil =>
    obtain ⟨c, cs, rfl⟩ : ∃ c cs, pat = c :: cs := by
      cases pat with
      | nil => exact absurd rfl hne
      | cons c cs => exact ⟨c, cs, rfl⟩
    show splitFirst (c :: cs) (c :: (cs ++ post)) = some ([], post)
    rw [splitFirst, if_pos]
    · exact congrArg some (Prod.ext rfl (List.drop_left (c :: cs) post))
    · exact List.prefix_append (c :: cs) post
  | cons x xs ih =>
    have h0 : ¬ pat <+: (x :: (xs ++ pat ++ post)) := by
      have := hfirst 0 (by simp)
      simpa using this
    show splitFirst pat (x :: (xs ++ pat ++ post)) = some (x :: xs, post)
    rw [splitFirst, if_neg h0]
    have hrec : splitFirst pat (xs ++ pat ++ post) = some (xs, post) := by
      refine ih (fun i hi => ?_)
      have := hfirst (i + 1) (by simpa using Nat.succ_lt_succ hi)
      simpa [List.drop_succ_cons] using this
    rw [hrec]

/-- Lemma: `replace` actually rewrites the designated occurrence when it is
the first one. -/
theorem replaceFirst_append (pat pre post rep : List Char) (hne : pat ≠ [])
    (hfirst : ∀ i, i < pre.length → ¬ pat <+: (pre ++ pat ++ post).drop i) :
    replaceFirst (pre ++ pat ++ post) pat rep = pre ++ rep ++ post := by
  rw [replaceFirst, splitFirst_append pat pre post hne hfirst]

/-- Claim C1 (amended).  Exact-substring rewriting in `embedFonts`.
Part 1 (as claimed): for two *distinct* `url(...)` references, each
completed rewrite task replaces the exact original matched substring,
so both completion orders produce the same final text, with each
reference replaced by its own payload.  The positional hypotheses say
that the designated occurrence of each reference is the first
occurrence of that substring in the buffer state it is applied to.
Part 2 (correcting the claim's last clause): when the identical
`url(...)` text occurs twice, `match(/url\(...\)/g)` reports *both*
occurrences, so two rewrite tasks run; each rewrites the then-first
occurrence, and after both complete *all* duplicates are rewritten —
duplicate references are not left un-rewritten. -/
theorem embedFonts_exact_substring_rewrite
    (a b c l1 l2 : List Char) (dataUrl : List Char → List Char)
    (a2 b2 c2 l : List Char) (dataUrl2 : List Char → List Char)
    (hne1 : l1 ≠ []) (hne2 : l2 ≠ []) (hnel : l ≠ [])
    (hA : ∀ i, i < a.length → ¬ l1 <+: (a ++ l1 ++ (b ++ l2 ++ c)).drop i)
    (hB : ∀ i, i < (a ++ l1 ++ b).length →
      ¬ l2 <+: ((a ++ l1 ++ b) ++ l2 ++ c).drop i)
    (hC : ∀ i, i < (a ++ urlWrap (dataUrl l1) ++ b).length →
      ¬ l2 <+: ((a ++ urlWrap (dataUrl l1) ++ b) ++ l2 ++ c).drop i)
    (hD : ∀ i, i < a.length →
      ¬ l1 <+: (a ++ l1 ++ (b ++ urlWrap (dataUrl l2) ++ c)).drop i)
    (hlocs : extractUrlLocs (a2 ++ l ++ (b2 ++ l ++ c2)) = [l, l])
    (hE : ∀ i, i < a2.length → ¬ l <+: (a2 ++ l ++ (b2 ++ l ++ c2)).drop i)
    (hF : ∀ i, i < (a2 ++ urlWrap (dataUrl2 l) ++ b2).length →
      ¬ l <+: ((a2 ++ urlWrap (dataUrl2 l) ++ b2) ++ l ++ c2).drop i) :
    (embedFonts (a ++ l1 ++ (b ++ l2 ++ c)) dataUrl [l1, l2]
        = a ++ urlWrap (dataUrl l1) ++ (b ++ urlWrap (dataUrl l2) ++ c)
      ∧ embedFonts (a ++ l1 ++ (b ++ l2 ++ c)) dataUrl [l2, l1]
        = a ++ urlWrap (dataUrl l1) ++ (b ++ urlWrap (dataUrl l2) ++ c))
    ∧ embedFonts (a2 ++ l ++ (b2 ++ l ++ c2)) dataUrl2
        (extractUrlLocs (a2 ++ l ++ (b2 ++ l ++ c2)))
        = a2 ++ urlWrap (dataUrl2 l) ++ (b2 ++ urlWrap (dataUrl2 l) ++ c2) := by
  have e1 : replaceFirst (a ++ l1 ++ (b ++ l2 ++ c)) l1 (urlWrap (dataUrl l1))
      = a ++ urlWrap (dataUrl l1) ++ (b ++ l2 ++ c) :=
    replaceFirst_append l1 a (b ++ l2 ++ c) (urlWrap (dataUrl l1)) hne1 hA
  have e2 : replaceFirst ((a ++ urlWrap (dataUrl l1) ++ b) ++ l2 ++ c) l2
      (urlWrap (dataUrl l2))
      = (a ++ urlWrap (dataUrl l1) ++ b) ++ urlWrap (dataUrl l2) ++ c :=
    replaceFirst_append l2 (a ++ urlWrap (dataUrl l1) ++ b) c
      (urlWrap (dataUrl l2)) hne2 hC
  have e3 : replaceFirst ((a ++ l1 ++ b) ++ l2 ++ c) l2 (urlWrap (dataUrl l2))
      = (a ++ l1 ++ b) ++ urlWrap (dataUrl l2) ++ c :=
    replaceFirst_append l2 (a ++ l1 ++ b) c (urlWrap (dataUrl l2)) hne2 hB
  have e4 : replaceFirst (a ++ l1 ++ (b ++ urlWrap (dataUrl l2) ++ c)) l1
      (urlWrap (dataUrl l1))
      = a ++ urlWrap (dataUrl l1) ++ (b ++ urlWrap (dataUrl l2) ++ c) :=
    replaceFirst_append l1 a (b ++ urlWrap (dataUrl l2) ++ c)
      (urlWrap (dataUrl l1)) hne1 hD
  have e5 : replaceFirst (a2 ++ l ++ (b2 ++ l ++ c2)) l (urlWrap (dataUrl2 l))
      = a2 ++ urlWrap (dataUrl2 l) ++ (b2 ++ l ++ c2) :=
    replaceFirst_append l a2 (b2 ++ l ++ c2) (urlWrap (dataUrl2 l)) hnel hE
  have e6 : replaceFirst ((a2 ++ urlWrap (dataUrl2 l) ++ b2) ++ l ++ c2) l
      (urlWrap (dataUrl2 l))
      = (a2 ++ urlWrap (dataUrl2 l) ++ b2) ++ urlWrap (dataUrl2 l) ++ c2 :=
    replaceFirst_append l (a2 ++ urlWrap (dataUrl2 l) ++ b2) c2
      (urlWrap (dataUrl2 l)) hnel hF
  refine ⟨⟨?_, ?_⟩, ?_⟩
  · show rewriteAll _ _ = _
    simp only [rewriteAll, List.foldl, List.map]
    rw [e1, show a ++ urlWrap (dataUrl l1) ++ (b ++ l2 ++ c)
        = (a ++ urlWrap (dataUrl l1) ++ b) ++ l2 ++ c by
      simp [List.append_assoc], e2]
    simp [List.append_assoc]
  · show rewriteAll _ _ = _
    simp only [rewriteAll, List.foldl, List.map]
    rw [show a ++ l1 ++ (b ++ l2 ++ c) = (a ++ l1 ++ b) ++ l2 ++ c by
      simp [List.append_assoc], e3,
      show (a ++ l1 ++ b) ++ urlWrap (dataUrl l2) ++ c
        = a ++ l1 ++ (b ++ urlWrap (dataUrl l2) ++ c) by
      simp [List.append_assoc], e4]
  · rw [hlocs]
    show rewriteAll _ _ = _
    simp only [rewriteAll, List.foldl, List.map]
    rw [e5, show a2 ++ urlWrap (dataUrl2 l) ++ (b2 ++ l ++ c2)
        = (a2 ++ urlWrap (dataUrl2 l) ++ b2) ++ l ++ c2 by
      simp [List.append_assoc], e6]
    simp [List.append_assoc]

/-- Witness for C1: `url(a)`/`url(b)` with payloads `data:x`/`data:y`
(both orders agree), and the duplicate text `url(a) url(a)` where both
occurrences get rewritten. -/
theorem embedFonts_exact_substring_rewrite_witness :
    (embedFonts (([] : List Char) ++ ("url(a)").toList ++
        ((" ").toList ++ ("url(b)").toList ++ ([] : List Char)))
        (fun loc => if loc = ("url(a)").toList then ("data:x").toList
          else ("data:y").toList)
        [("url(a)").toList, ("url(b)").toList]
      = ([] : List Char) ++
        urlWrap ((fun loc => if loc = ("url(a)").toList then ("data:x").toList
          else ("data:y").toList) (("url(a)").toList)) ++
        ((" ").toList ++
          urlWrap ((fun loc => if loc = ("url(a)").toList then ("data:x").toList
            else ("data:y").toList) (("url(b)").toList)) ++ ([] : List Char))
      ∧ embedFonts (([] : List Char) ++ ("url(a)").toList ++
        ((" ").toList ++ ("url(b)").toList ++ ([] : List Char)))
        (fun loc => if loc = ("url(a)").toList then ("data:x").toList
          else ("data:y").toList)
        [("url(b)").toList, ("url(a)").toList]
      = ([] : List Char) ++
        urlWrap ((fun loc => if loc = ("url(a)").toList then ("data:x").toList
          else ("data:y").toList) (("url(a)").toList)) ++
        ((" ").toList ++
          urlWrap ((fun loc => if loc = ("url(a)").toList then ("data:x").toList
            else ("data:y").toList) (("url(b)").toList)) ++ ([] : List Char))) ∧
    embedFonts (([] : List Char) ++ ("url(a)").toList ++
        ((" ").toList ++ ("url(a)").toList ++ ([] : List Char)))
        (fun _ => ("data:f").toList)
        (extractUrlLocs (([] : List Char) ++ ("url(a)").toList ++
          ((" ").toList ++ ("url(a)").toList ++ ([] : List Char))))
      = ([] : List Char) ++ urlWrap (("data:f").toList) ++
        ((" ").toList ++ urlWrap (("data:f").toList) ++ ([] : List Char)) :=
  embedFonts_exact_substring_rewrite
    [] (" ").toList [] (("url(a)").toList) (("url(b)").toList)
    (fun loc => if loc = ("url(a)").toList then ("data:x").toList
      else ("data:y").toList)
    [] (" ").toList [] (("url(a)").toList) (fun _ => ("data:f").toList)
    (by decide) (by decide) (by decide)
    (by decide) (by decide) (by decide) (by decide)
    (by decide) (by decide) (by decide)

/-- Counterexample for C1's final clause: in `url(a) url(a)` every
occurrence is reported by `match(/url\([^)]+\)/g)`, each spawns its own
rewrite, and after both rewrites complete no `url(a)` is left — the
duplicates *are* all rewritten, contrary to the claim. -/
theorem embedFonts_duplicate_refs_all_rewritten :
    embedFonts (("url(a) url(a)").toList) (fun _ => ("data:f").toList)
        (extractUrlLocs (("url(a) url(a)").toList))
      = ("url(data:f) url(data:f)").toList
    ∧ ¬ (("url(a)").toList <:+:
        embedFonts (("url(a) url(a)").toList) (fun _ => ("data:f").toList)
          (extractUrlLocs (("url(a) url(a)").toList))) := by
  constructor
  · decide
  · decide

/-- Claim C6.  Timeout truncation in `embedFonts`.  The per-reference
rewrite tasks are raced against the fixed 5000 ms timeout, and the
shared buffer is read once, when the race settles; the model
`embedFonts` is total, so the orchestrator always resolves.  With two
references of which only the first one's rewrite completes before
settlement: the returned text embeds the completed reference, the
unresolved reference is left as its original `url(...)` text (an infix
of the result); had the second rewrite also run (as it would in the
shared buffer *after* settlement), the buffer would differ from the
returned value — the late mutation is not reflected in what was
returned. -/
theorem embedFonts_timeout_truncation
    (a b c l1 l2 : List Char) (dataUrl : List Char → List Char)
    (hne1 : l1 ≠ []) (hne2 : l2 ≠ [])
    (_hlocs : extractUrlLocs (a ++ l1 ++ (b ++ l2 ++ c)) = [l1, l2])
    (hA : ∀ i, i < a.length → ¬ l1 <+: (a ++ l1 ++ (b ++ l2 ++ c)).drop i)
    (hC : ∀ i, i < (a ++ urlWrap (dataUrl l1) ++ b).length →
      ¬ l2 <+: ((a ++ urlWrap (dataUrl l1) ++ b) ++ l2 ++ c).drop i)
    (hlate : l2 ≠ urlWrap (dataUrl l2)) :
    embedFonts (a ++ l1 ++ (b ++ l2 ++ c)) dataUrl [l1]
        = a ++ urlWrap (dataUrl l1) ++ (b ++ l2 ++ c)
    ∧ l2 <:+: embedFonts (a ++ l1 ++ (b ++ l2 ++ c)) dataUrl [l1]
    ∧ embedFonts (a ++ l1 ++ (b ++ l2 ++ c)) dataUrl [l1, l2]
        = a ++ urlWrap (dataUrl l1) ++ (b ++ urlWrap (dataUrl l2) ++ c)
    ∧ embedFonts (a ++ l1 ++ (b ++ l2 ++ c)) dataUrl [l1, l2]
        ≠ embedFonts (a ++ l1 ++ (b ++ l2 ++ c)) dataUrl [l1] := by
  have e1 : replaceFirst (a ++ l1 ++ (b ++ l2 ++ c)) l1 (urlWrap (dataUrl l1))
      = a ++ urlWrap (dataUrl l1) ++ (b ++ l2 ++ c) :=
    replaceFirst_append l1 a (b ++ l2 ++ c) (urlWrap (dataUrl l1)) hne1 hA
  have e2 : replaceFirst ((a ++ urlWrap (dataUrl l1) ++ b) ++ l2 ++ c) l2
      (urlWrap (dataUrl l2))
      = (a ++ urlWrap (dataUrl l1) ++ b) ++ urlWrap (dataUrl l2) ++ c :=
    replaceFirst_append l2 (a ++ urlWrap (dataUrl l1) ++ b) c
      (urlWrap (dataUrl l2)) hne2 hC
  have h1 : embedFonts (a ++ l1 ++ (b ++ l2 ++ c)) dataUrl [l1]
      = a ++ urlWrap (dataUrl l1) ++ (b ++ l2 ++ c) := by
    show rewriteAll _ _ = _
    simp only [rewriteAll, List.foldl, List.map]
    exact e1
  have h3 : embedFonts (a ++ l1 ++ (b ++ l2 ++ c)) dataUrl [l1, l2]
      = a ++ urlWrap (dataUrl l1) ++ (b ++ urlWrap (dataUrl l2) ++ c) := by
    show rewriteAll _ _ = _
    simp only [rewriteAll, List.foldl, List.map]
    rw [e1, show a ++ urlWrap (dataUrl l1) ++ (b ++ l2 ++ c)
        = (a ++ urlWrap (dataUrl l1) ++ b) ++ l2 ++ c by
      simp [List.append_assoc], e2]
    simp [List.append_assoc]
  refine ⟨h1, ?_, h3, ?_⟩
  · rw [h1]
    exact ⟨a ++ urlWrap (dataUrl l1) ++ b, c, by simp [List.append_assoc]⟩
  · rw [h1, h3]
    intro h
    apply hlate
    have h' := List.append_cancel_left h
    have h'' := List.append_cancel_right h'
    exact (List.append_cancel_left h'').symm

/-- Witness for C6: `url(a) url(b)` where only `url(a)`'s rewrite
completes before the race settles. -/
theorem embedFonts_timeout_truncation_witness :
    embedFonts (([] : List Char) ++ ("url(a)").toList ++
        ((" ").toList ++ ("url(b)").toList ++ ([] : List Char)))
        (fun loc => if loc = ("url(a)").toList then ("data:x").toList
          else ("data:y").toList) [("url(a)").toList]
      = ([] : List Char) ++
        urlWrap ((fun loc => if loc = ("url(a)").toList then ("data:x").toList
          else ("data:y").toList) (("url(a)").toList)) ++
        ((" ").toList ++ ("url(b)").toList ++ ([] : List Char))
    ∧ ("url(b)").toList <:+:
        embedFonts (([] : List Char) ++ ("url(a)").toList ++
          ((" ").toList ++ ("url(b)").toList ++ ([] : List Char)))
          (fun loc => if loc = ("url(a)").toList then ("data:x").toList
            else ("data:y").toList) [("url(a)").toList]
    ∧ embedFonts (([] : List Char) ++ ("url(a)").toList ++
        ((" ").toList ++ ("url(b)").toList ++ ([] : List Char)))
        (fun loc => if loc = ("url(a)").toList then ("data:x").toList
          else ("data:y").toList) [("url(a)").toList, ("url(b)").toList]
      = ([] : List Char) ++
        urlWrap ((fun loc => if loc = ("url(a)").toList then ("data:x").toList
          else ("data:y").toList) (("url(a)").toList)) ++
        ((" ").toList ++
          urlWrap ((fun loc => if loc = ("url(a)").toList then ("data:x").toList
            else ("data:y").toList) (("url(b)").toList)) ++ ([] : List Char))
    ∧ embedFonts (([] : List Char) ++ ("url(a)").toList ++
        ((" ").toList ++ ("url(b)").toList ++ ([] : List Char)))
        (fun loc => if loc = ("url(a)").toList then ("data:x").toList
          else ("data:y").toList) [("url(a)").toList, ("url(b)").toList]
      ≠ embedFonts (([] : List Char) ++ ("url(a)").toList ++
        ((" ").toList ++ ("url(b)").toList ++ ([] : List Char)))
        (fun loc => if loc = ("url(a)").toList then ("data:x").toList
          else ("data:y").toList) [("url(a)").toList] :=
  embedFonts_timeout_truncation
    [] (" ").toList [] (("url(a)").toList) (("url(b)").toList)
    (fun loc => if loc = ("url(a)").toList then ("data:x").toList
      else ("data:y").toList)
    (by decide) (by decide) (by decide) (by decide) (by decide) (by decide)

theorem getBlobFromURL_cache_hit (url : List Char) (o : Options) (ts : List Char)
    (f : List Char → Option (List Char × List Char)) (st : BlobState)
    (m : Metadata)
    (h : assocFind (getCacheKey url o.includeQueryParams) st.entries = some m) :
    getBlobFromURL url o ts f st = (m, st) := by
  simp [getBlobFromURL, h]

theorem getBlobFromURL_find_result (url : List Char) (o : Options) (ts : List Char)
    (f : List Char → Option (List Char × List Char)) (st : BlobState) :
    assocFind (getCacheKey url o.includeQueryParams)
        ((getBlobFromURL url o ts f st).2).entries
      = some (getBlobFromURL url o ts f st).1 := by
  cases h : assocFind (getCacheKey url o.includeQueryParams) st.entries with
  | some m => rw [getBlobFromURL_cache_hit url o ts f st m h]; exact h
  | none =>
    simp only [getBlobFromURL, h]
    rw [assocFind_append_none _ h, assocFind_cons_self]

theorem runBlobCalls_stable (o : Options) (ts : List Char)
    (f : List Char → Option (List Char × List Char)) (key : List Char)
    (urls : List (List Char)) (s : BlobState)
    (hk : ∀ u ∈ urls, getCacheKey u o.includeQueryParams = key)
    (hs : ∃ m, assocFind key s.entries = some m) :
    runBlobCalls o ts f urls s = s := by
  induction urls with
  | nil => rfl
  | cons u us ih =>
    obtain ⟨m, hm⟩ := hs
    have hu : getCacheKey u o.includeQueryParams = key := hk u (by simp)
    have hcall : getBlobFromURL u o ts f s = (m, s) :=
      getBlobFromURL_cache_hit u o ts f s m (by rw [hu]; exact hm)
    show runBlobCalls o ts f us (getBlobFromURL u o ts f s).2 = s
    rw [hcall]
    exact ih (fun v hv => hk v (List.mem_cons_of_mem u hv))

/-- Claim C2.  Deduplication of `getBlobFromURL`.  The first call for a
cache key stores its (settled) future synchronously, before any other
call can run; a later call whose URL maps to the same key returns that
same stored future with the state untouched (no second request); over
both calls at most one request is issued; on a miss the one request
issued uses the cache-busted URL (`requestUrlOf`) while the cache key
stays `getCacheKey url` — `cacheBust` never changes the key; and any
further sequence of same-key calls leaves the state unchanged. -/
theorem getBlobFromURL_dedup
    (url url2 : List Char) (o : Options) (ts ts2 : List Char)
    (f f2 : List Char → Option (List Char × List Char)) (st : BlobState)
    (hkey : getCacheKey url2 o.includeQueryParams
      = getCacheKey url o.includeQueryParams) :
    (getBlobFromURL url2 o ts2 f2 (getBlobFromURL url o ts f st).2
        = ((getBlobFromURL url o ts f st).1, (getBlobFromURL url o ts f st).2))
    ∧ ((getBlobFromURL url o ts f st).2).requests.length ≤ st.requests.length + 1
    ∧ (assocFind (getCacheKey url o.includeQueryParams) st.entries = none →
        ((getBlobFromURL url o ts f st).2).requests
            = st.requests ++ [requestUrlOf url o.cacheBust ts]
          ∧ assocFind (getCacheKey url o.includeQueryParams)
              ((getBlobFromURL url o ts f st).2).entries
            = some (getBlobFromURL url o ts f st).1)
    ∧ (∀ urls : List (List Char),
        (∀ u ∈ urls, getCacheKey u o.includeQueryParams
          = getCacheKey url o.includeQueryParams) →
        runBlobCalls o ts f urls (getBlobFromURL url o ts f st).2
          = (getBlobFromURL url o ts f st).2) := by
  refine ⟨?_, ?_, ?_, ?_⟩
  · exact getBlobFromURL_cache_hit url2 o ts2 f2 _ _
      (by rw [hkey]; exact getBlobFromURL_find_result url o ts f st)
  · cases h : assocFind (getCacheKey url o.includeQueryParams) st.entries with
    | some m => rw [getBlobFromURL_cache_hit url o ts f st m h]; exact Nat.le_succ _
    | none => simp [getBlobFromURL, h]
  · intro hmiss
    constructor
    · simp [getBlobFromURL, hmiss]
    · exact getBlobFromURL_find_result url o ts f st
  · intro urls hk
    exact runBlobCalls_stable o ts f _ urls _ hk
      ⟨_, getBlobFromURL_find_result url o ts f st⟩

/-- The `failed` handler computes exactly the second comma-split field
of the placeholder option. -/
theorem failedMeta_eq_amended (ph : Option (List Char)) :
    failedMeta ph = { blob := amendedPlaceholder ph, contentType := [] } := by
  cases ph with
  | none => rfl
  | some p =>
    by_cases hp : p = []
    · subst hp; decide
    · simp only [failedMeta, amendedPlaceholder, hp, ne_eq, not_false_iff, if_true]
      cases hq : (splitOnComma p).get? 1 with
      | none => simp [hq]
      | some seg =>
        by_cases hseg : seg = []
        · subst hseg; simp [hq]
        · simp [hq, hseg]

/-- Witness for C2: the spec's own scenario — two hosts serving
`a.woff2` with different query strings and `cacheBust` set.  Both URLs
map to cache key `a.woff2`; the second call (even with a different
oracle and timestamp) returns the first call's stored result and issues
no request; the single request issued is the cache-busted URL. -/
theorem getBlobFromURL_dedup_witness :
    (getBlobFromURL (("https://other.example.com/a.woff2?v=2").toList)
        ⟨false, true, none⟩ (("456").toList) (fun _ => none)
        (getBlobFromURL (("https://cdn.example.com/a.woff2?v=1").toList)
          ⟨false, true, none⟩ (("123").toList)
          (fun _ => some (("data:font/woff;base64,AAAA").toList, ("font/woff").toList))
          ⟨[], []⟩).2
      = ((getBlobFromURL (("https://cdn.example.com/a.woff2?v=1").toList)
          ⟨false, true, none⟩ (("123").toList)
          (fun _ => some (("data:font/woff;base64,AAAA").toList, ("font/woff").toList))
          ⟨[], []⟩).1,
        (getBlobFromURL (("https://cdn.example.com/a.woff2?v=1").toList)
          ⟨false, true, none⟩ (("123").toList)
          (fun _ => some (("data:font/woff;base64,AAAA").toList, ("font/woff").toList))
          ⟨[], []⟩).2))
    ∧ ((getBlobFromURL (("https://cdn.example.com/a.woff2?v=1").toList)
          ⟨false, true, none⟩ (("123").toList)
          (fun _ => some (("data:font/woff;base64,AAAA").toList, ("font/woff").toList))
          ⟨[], []⟩).2).requests
        = ([] : List (List Char)) ++
          [requestUrlOf (("https://cdn.example.com/a.woff2?v=1").toList) true
            (("123").toList)]
    ∧ runBlobCalls ⟨false, true, none⟩ (("123").toList)
        (fun _ => some (("data:font/woff;base64,AAAA").toList, ("font/woff").toList))
        [("https://cdn.example.com/a.woff2?v=1").toList,
          ("https://other.example.com/a.woff2?v=2").toList]
        (getBlobFromURL (("https://cdn.example.com/a.woff2?v=1").toList)
          ⟨false, true, none⟩ (("123").toList)
          (fun _ => some (("data:font/woff;base64,AAAA").toList, ("font/woff").toList))
          ⟨[], []⟩).2
      = (getBlobFromURL (("https://cdn.example.com/a.woff2?v=1").toList)
          ⟨false, true, none⟩ (("123").toList)
          (fun _ => some (("data:font/woff;base64,AAAA").toList, ("font/woff").toList))
          ⟨[], []⟩).2 := by
  have h := getBlobFromURL_dedup
    (("https://cdn.example.com/a.woff2?v=1").toList)
    (("https://other.example.com/a.woff2?v=2").toList)
    ⟨false, true, none⟩ (("123").toList) (("456").toList)
    (fun _ => some (("data:font/woff;base64,AAAA").toList, ("font/woff").toList))
    (fun _ => none) ⟨[], []⟩ (by decide)
  exact ⟨h.1, (h.2.2.1 (by decide)).1, h.2.2.2 _ (by decide)⟩

/-- Claim C3 (amended).  Failure placeholder of `getBlobFromURL`.  On any
fetch failure the call *resolves* with a placeholder metadata — `blob`
is the *second comma-split field* of the `imagePlaceholder` option
(when the option is set and the field is present and non-empty; not
"everything after the first comma"), `contentType` is empty — the
placeholder future is cached like a success, one request was issued,
and every later same-key call returns the identical placeholder with no
further request. -/
theorem getBlobFromURL_failure_placeholder
    (url : List Char) (o : Options) (ts : List Char)
    (f : List Char → Option (List Char × List Char)) (st : BlobState)
    (hmiss : assocFind (getCacheKey url o.includeQueryParams) st.entries = none)
    (hfail : f (requestUrlOf url o.cacheBust ts) = none) :
    (getBlobFromURL url o ts f st).1
        = { blob := amendedPlaceholder o.imagePlaceholder, contentType := [] }
    ∧ ((getBlobFromURL url o ts f st).2).requests
        = st.requests ++ [requestUrlOf url o.cacheBust ts]
    ∧ ∀ url2 ts2 f2,
        getCacheKey url2 o.includeQueryParams
          = getCacheKey url o.includeQueryParams →
        getBlobFromURL url2 o ts2 f2 (getBlobFromURL url o ts f st).2
          = ((getBlobFromURL url o ts f st).1,
            (getBlobFromURL url o ts f st).2) := by
  refine ⟨?_, ?_, ?_⟩
  · have h1 : (getBlobFromURL url o ts f st).1 = failedMeta o.imagePlaceholder := by
      simp [getBlobFromURL, hmiss, hfail]
    rw [h1, failedMeta_eq_amended]
  · simp [getBlobFromURL, hmiss]
  · intro url2 ts2 f2 hkey
    exact getBlobFromURL_cache_hit url2 o ts2 f2 _ _
      (by rw [hkey]; exact getBlobFromURL_find_result url o ts f st)

/-- Witness for C3: a failing fetch of `u.png` with placeholder option
`data:image/png;base64,iVBOR` resolves with blob `iVBOR`, caches it,
and a second call returns the same placeholder with no new request. -/
theorem getBlobFromURL_failure_placeholder_witness :
    (getBlobFromURL (("u.png").toList)
        ⟨false, false, some (("data:image/png;base64,iVBOR").toList)⟩
        (("0").toList) (fun _ => none) ⟨[], []⟩).1
      = { blob := amendedPlaceholder (some (("data:image/png;base64,iVBOR").toList)),
          contentType := [] }
    ∧ ((getBlobFromURL (("u.png").toList)
        ⟨false, false, some (("data:image/png;base64,iVBOR").toList)⟩
        (("0").toList) (fun _ => none) ⟨[], []⟩).2).requests
      = ([] : List (List Char)) ++
        [requestUrlOf (("u.png").toList) false (("0").toList)]
    ∧ ∀ ts2 f2,
        getBlobFromURL (("u.png").toList)
          ⟨false, false, some (("data:image/png;base64,iVBOR").toList)⟩
          ts2 f2
          (getBlobFromURL (("u.png").toList)
            ⟨false, false, some (("data:image/png;base64,iVBOR").toList)⟩
            (("0").toList) (fun _ => none) ⟨[], []⟩).2
        = ((getBlobFromURL (("u.png").toList)
            ⟨false, false, some (("data:image/png;base64,iVBOR").toList)⟩
            (("0").toList) (fun _ => none) ⟨[], []⟩).1,
          (getBlobFromURL (("u.png").toList)
            ⟨false, false, some (("data:image/png;base64,iVBOR").toList)⟩
            (("0").toList) (fun _ => none) ⟨[], []⟩).2) := by
  have h := getBlobFromURL_failure_placeholder (("u.png").toList)
    ⟨false, false, some (("data:image/png;base64,iVBOR").toList)⟩
    (("0").toList) (fun _ => none) ⟨[], []⟩ (by decide) (by decide)
  exact ⟨h.1, h.2.1, fun ts2 f2 => h.2.2 _ ts2 f2 (by decide)⟩

/-- Counterexample for C3 as stated: with `imagePlaceholder` equal to
`a,b,c` (a payload containing a comma), a failing fetch produces blob
`b` — the segment between the first and second commas — not `b,c`, the
text after the first comma that the claim specifies. -/
theorem getBlobFromURL_placeholder_not_after_first_comma :
    (getBlobFromURL (("u.png").toList) ⟨false, false, some (("a,b,c").toList)⟩
        (("0").toList) (fun _ => none) ⟨[], []⟩).1.blob = ("b").toList
    ∧ afterFirstComma (("a,b,c").toList) = ("b,c").toList
    ∧ ("b").toList ≠ ("b,c").toList := by
  exact ⟨by decide, by decide, by decide⟩

theorem takeWhile_append_stop {p : Char → Bool} {l1 l2 : List Char} {a : Char}
    (h1 : ∀ c ∈ l1, p c = true) (h2 : p a = false) :
    (l1 ++ a :: l2).takeWhile p = l1 := by
  induction l1 with
  | nil => simp [List.takeWhile_cons, h2]
  | cons x xs ih =>
    have hx : p x = true := h1 x (by simp)
    simp [List.takeWhile_cons, hx, ih (fun c hc => h1 c (by simp [hc]))]

theorem stripQuery_append {xs ys : List Char} (hx : '?' ∉ xs) :
    stripQuery (xs ++ '?' :: ys) = xs ++ ys.dropWhile (fun d => !(isLineTerm d)) := by
  induction xs with
  | nil => simp [stripQuery]
  | cons x xt ih =>
    have hx1 : ¬ x = '?' := fun h => hx (by simp [h])
    have hx2 : '?' ∉ xt := fun h => hx (by simp [h])
    simp [stripQuery, hx1, ih hx2]

theorem afterLastSlash_append {xs ys : List Char} (hy : '/' ∉ ys) :
    afterLastSlash (xs ++ '/' :: ys) = ys := by
  have h1 : ∀ c ∈ ys.reverse, (c != '/') = true := by
    intro c hc
    have hmem : c ∈ ys := List.mem_reverse.mp hc
    have hne : c ≠ '/' := fun he => hy (he ▸ hmem)
    simpa using hne
  have h2 : (('/' : Char) != '/') = false := by decide
  calc afterLastSlash (xs ++ '/' :: ys)
      = ((ys.reverse ++ '/' :: xs.reverse).takeWhile (fun c => c != '/')).reverse := by
        simp [afterLastSlash]
    _ = (ys.reverse).reverse := by rw [takeWhile_append_stop h1 h2]
    _ = ys := List.reverse_reverse ys

theorem stripToLastSlash_oneline {s : List Char}
    (hterm : ∀ c ∈ s, isLineTerm c = false) (hs : '/' ∈ s) :
    stripToLastSlash s = afterLastSlash s := by
  obtain ⟨x, xs, rfl⟩ : ∃ x xs, s = x :: xs := by
    cases s with
    | nil => cases hs
    | cons x xs => exact ⟨x, xs, rfl⟩
  have hline : (x :: xs).takeWhile (fun c => !(isLineTerm c)) = x :: xs :=
    List.takeWhile_eq_self_iff.mpr (by intro c hc; simpa using hterm c hc)
  have hrest : (x :: xs).dropWhile (fun c => !(isLineTerm c)) = [] :=
    List.dropWhile_eq_nil_iff.mpr (by intro c hc; simpa using hterm c hc)
  show stripGo (x :: xs).length (x :: xs) = _
  rw [List.length_cons]
  simp only [stripGo, hline, hrest, List.append_nil]
  rw [if_pos hs]

/-- Claim C4 (amended).  Cache-key normalization.  For a URL
`path/base?qs` (no `?` before the query, no `/` or line terminators in
`base`/`qs`) whose font test succeeds: with `includeQueryParams` unset
the key is `base` (query stripped, then reduced to the text after the
last slash); with `includeQueryParams` set the key keeps the query but
is *still* reduced to the text after the last slash — `base?qs`, not
the full URL as claimed.  For a URL failing the font test the key is
just the query-stripped URL.  The key is a pure function of the URL and
the option (`getCacheKey` takes nothing else), computed before any
fetch. -/
theorem getCacheKey_spec
    (path base qs url2 : List Char)
    (hqp : '?' ∉ path) (hqb : '?' ∉ base)
    (hsb : '/' ∉ base) (hsq : '/' ∉ qs)
    (hltp : ∀ c ∈ path, isLineTerm c = false)
    (hltb : ∀ c ∈ base, isLineTerm c = false)
    (hltq : ∀ c ∈ qs, isLineTerm c = false)
    (hf1 : fontLike (path ++ '/' :: base) = true)
    (hf2 : fontLike (path ++ '/' :: (base ++ '?' :: qs)) = true)
    (hnf : fontLike (stripQuery url2) = false) :
    getCacheKey (path ++ '/' :: (base ++ '?' :: qs)) false = base
    ∧ getCacheKey (path ++ '/' :: (base ++ '?' :: qs)) true = base ++ '?' :: qs
    ∧ getCacheKey url2 false = stripQuery url2 := by
  have hqpb : '?' ∉ path ++ '/' :: base := by
    intro h
    rcases List.mem_append.mp h with h | h
    · exact hqp h
    · rcases List.mem_cons.mp h with h | h
      · cases h
      · exact hqb h
  have hstrip : stripQuery (path ++ '/' :: (base ++ '?' :: qs)) = path ++ '/' :: base := by
    rw [show path ++ '/' :: (base ++ '?' :: qs) = (path ++ '/' :: base) ++ '?' :: qs by
      simp, stripQuery_append hqpb,
      List.dropWhile_eq_nil_iff.mpr (by intro c hc; simpa using hltq c hc),
      List.append_nil]
  have htermPB : ∀ c ∈ path ++ '/' :: base, isLineTerm c = false := by
    intro c hc
    rcases List.mem_append.mp hc with h | h
    · exact hltp c h
    · rcases List.mem_cons.mp h with h | h
      · subst h; decide
      · exact hltb c h
  have htermAll : ∀ c ∈ path ++ '/' :: (base ++ '?' :: qs), isLineTerm c = false := by
    intro c hc
    rcases List.mem_append.mp hc with h | h
    · exact hltp c h
    · rcases List.mem_cons.mp h with h | h
      · subst h; decide
      · rcases List.mem_append.mp h with h | h
        · exact hltb c h
        · rcases List.mem_cons.mp h with h | h
          · subst h; decide
          · exact hltq c h
  have hslashQ : '/' ∉ base ++ '?' :: qs := by
    intro h
    rcases List.mem_append.mp h with h | h
    · exact hsb h
    · rcases List.mem_cons.mp h with h | h
      · cases h
      · exact hsq h
  refine ⟨?_, ?_, ?_⟩
  · show (if fontLike (stripQuery _) then stripToLastSlash (stripQuery _)
      else stripQuery _) = base
    rw [hstrip, if_pos hf1,
      stripToLastSlash_oneline htermPB (by simp),
      afterLastSlash_append hsb]
  · have hred : getCacheKey (path ++ '/' :: (base ++ '?' :: qs)) true
        = if fontLike (path ++ '/' :: (base ++ '?' :: qs)) then
            stripToLastSlash (path ++ '/' :: (base ++ '?' :: qs))
          else path ++ '/' :: (base ++ '?' :: qs) := rfl
    rw [hred, if_pos hf2,
      stripToLastSlash_oneline htermAll (by simp),
      afterLastSlash_append hslashQ]
  · show (if fontLike (stripQuery url2) then _ else stripQuery url2) = stripQuery url2
    rw [if_neg (by rw [hnf]; exact Bool.false_ne_true)]

/-- Witness for C4: `https://x.test/a.woff2?v=1` keys to `a.woff2`
without `includeQueryParams` and to `a.woff2?v=1` with it; the non-font
URL `http://a.test/b.png?x=1` keys to its query-stripped self. -/
theorem getCacheKey_spec_witness :
    getCacheKey (("https://x.test").toList ++ '/' ::
        (("a.woff2").toList ++ '?' :: ("v=1").toList)) false = ("a.woff2").toList
    ∧ getCacheKey (("https://x.test").toList ++ '/' ::
        (("a.woff2").toList ++ '?' :: ("v=1").toList)) true
      = ("a.woff2").toList ++ '?' :: ("v=1").toList
    ∧ getCacheKey (("http://a.test/b.png?x=1").toList) false
      = stripQuery (("http://a.test/b.png?x=1").toList) :=
  getCacheKey_spec (("https://x.test").toList) (("a.woff2").toList)
    (("v=1").toList) (("http://a.test/b.png?x=1").toList)
    (by decide) (by decide) (by decide) (by decide) (by decide) (by decide)
    (by decide) (by decide) (by decide) (by decide)

/-- Counterexample for C4's `includeQueryParams` clause: for the font
URL `https://cdn.example.com/a.woff2?v=1` with the option set, the key
is `a.woff2?v=1` — the basename keeps the query string — and not the
full URL the claim promises. -/
theorem getCacheKey_not_full_url :
    getCacheKey (("https://cdn.example.com/a.woff2?v=1").toList) true
      = ("a.woff2?v=1").toList
    ∧ getCacheKey (("https://cdn.example.com/a.woff2?v=1").toList) true
      ≠ ("https://cdn.example.com/a.woff2?v=1").toList :=
  ⟨by decide, by decide⟩

/-- Claim C7.  `resolveUrl` branch behavior: scheme-absolute references
(`scheme://…`, case-insensitive) are returned unchanged;
protocol-relative references (`//…`) are prefixed with the current
document's protocol; references with any other explicit scheme
(`data:`, `mailto:`, `tel:`, …) are returned unchanged; everything else
is resolved by ordinary hyperlink resolution against `baseUrl` in a
throwaway document (the `anchorResolve` oracle).  The function is
total: there is no error outcome for any input. -/
theorem resolveUrl_branches (url : List Char) (baseUrl : Option (List Char))
    (proto : List Char)
    (anchorResolve : Option (List Char) → List Char → List Char) :
    (schemeAbsTest url = true →
      resolveUrl url baseUrl proto anchorResolve = url)
    ∧ (schemeAbsTest url = false → protoRelTest url = true →
      resolveUrl url baseUrl proto anchorResolve = proto ++ url)
    ∧ (schemeAbsTest url = false → protoRelTest url = false →
      schemeColonTest url = true →
      resolveUrl url baseUrl proto anchorResolve = url)
    ∧ (schemeAbsTest url = false → protoRelTest url = false →
      schemeColonTest url = false →
      resolveUrl url baseUrl proto anchorResolve = anchorResolve baseUrl url) := by
  refine ⟨?_, ?_, ?_, ?_⟩
  · intro h1
    simp [resolveUrl, h1]
  · intro h1 h2
    simp [resolveUrl, h1, h2]
  · intro h1 h2 h3
    simp [resolveUrl, h1, h2, h3]
  · intro h1 h2 h3
    simp [resolveUrl, h1, h2, h3]

/-- Witness for C7: one concrete reference per branch
(`https://a.b/c`, `//host/x`, `data:abc`, `img/a.png`). -/
theorem resolveUrl_branches_witness :
    resolveUrl (("https://a.b/c").toList) (some (("https://s.t/u").toList))
        (("https:").toList) (fun _ r => ("R:").toList ++ r)
      = ("https://a.b/c").toList
    ∧ resolveUrl (("//host/x").toList) (some (("https://s.t/u").toList))
        (("https:").toList) (fun _ r => ("R:").toList ++ r)
      = ("https:").toList ++ ("//host/x").toList
    ∧ resolveUrl (("data:abc").toList) (some (("https://s.t/u").toList))
        (("https:").toList) (fun _ r => ("R:").toList ++ r)
      = ("data:abc").toList
    ∧ resolveUrl (("img/a.png").toList) (some (("https://s.t/u").toList))
        (("https:").toList) (fun _ r => ("R:").toList ++ r)
      = (fun _ r => ("R:").toList ++ r) (some (("https://s.t/u").toList))
          (("img/a.png").toList) := by
  refine ⟨?_, ?_, ?_, ?_⟩
  · exact (resolveUrl_branches _ _ _ _).1 (by decide)
  · exact (resolveUrl_branches _ _ _ _).2.1 (by decide) (by decide)
  · exact (resolveUrl_branches _ _ _ _).2.2.1 (by decide) (by decide) (by decide)
  · exact (resolveUrl_branches _ _ _ _).2.2.2 (by decide) (by decide) (by decide)

/-- Claim C8.  A node whose `ownerDocument` is `null` makes
`parseWebFontRules` reject with `Provided element is not within a
Document`, and the rejection propagates through `getWebFontCSS` to the
immediate caller — no fallback result is produced, whatever the
style-sheet walker, embedding predicate, or resource embedder would
have done. -/
theorem parseWebFontRules_missing_document
    (shouldEmbed : List Char → Bool)
    (cssRulesOf : List StyleRule → List StyleRule)
    (embedRule : StyleRule → List Char) :
    parseWebFontRules none shouldEmbed cssRulesOf
      = Except.error (("Provided element is not within a Document").toList)
    ∧ getWebFontCSS none shouldEmbed cssRulesOf embedRule
      = Except.error (("Provided element is not within a Document").toList) :=
  ⟨rfl, rfl⟩

/-- Claim C9.  `parseCSS` is total on absent input: a `null`/`undefined`
source yields the empty list rather than a crash. -/
theorem parseCSS_null_source : parseCSS none = [] := rfl

/-- Claim C10.  The style-sheet fetch cache stores failures: when the
first `fetchCSS` for a URL produces a rejected future, that same
rejected future is cached under the exact URL, one request is recorded,
and every later `fetchCSS` for the same URL — whatever the network
would now answer — returns the same rejected future without a new
request. -/
theorem fetchCSS_failure_cached (url e : List Char)
    (net : List Char → Except (List Char) (List Char)) (st : CssFetchState)
    (hmiss : assocFind url st.entries = none)
    (herr : net url = Except.error e) :
    (fetchCSS url net st).1 = Except.error e
    ∧ ((fetchCSS url net st).2).requests = st.requests ++ [url]
    ∧ ∀ net2, fetchCSS url net2 (fetchCSS url net st).2
        = (Except.error e, (fetchCSS url net st).2) := by
  have hcall : fetchCSS url net st
      = (Except.error e,
        ⟨st.entries ++ [(url, Except.error e)], st.requests ++ [url]⟩) := by
    simp [fetchCSS, hmiss, herr]
  refine ⟨by rw [hcall], by rw [hcall], ?_⟩
  intro net2
  rw [hcall]
  show fetchCSS url net2
      ⟨st.entries ++ [(url, Except.error e)], st.requests ++ [url]⟩ = _
  simp [fetchCSS, assocFind_append_none _ hmiss, assocFind_cons_self]

/-- Witness for C10: a style sheet whose fetch rejects with `boom` is
never re-fetched; the second call returns the same rejection. -/
theorem fetchCSS_failure_cached_witness :
    (fetchCSS (("https://css.test/s.css").toList)
        (fun _ => Except.error (("boom").toList)) ⟨[], []⟩).1
      = Except.error (("boom").toList)
    ∧ ((fetchCSS (("https://css.test/s.css").toList)
        (fun _ => Except.error (("boom").toList)) ⟨[], []⟩).2).requests
      = ([] : List (List Char)) ++ [("https://css.test/s.css").toList]
    ∧ ∀ net2, fetchCSS (("https://css.test/s.css").toList) net2
        (fetchCSS (("https://css.test/s.css").toList)
          (fun _ => Except.error (("boom").toList)) ⟨[], []⟩).2
      = (Except.error (("boom").toList),
        (fetchCSS (("https://css.test/s.css").toList)
          (fun _ => Except.error (("boom").toList)) ⟨[], []⟩).2) :=
  fetchCSS_failure_cached (("https://css.test/s.css").toList) (("boom").toList)
    (fun _ => Except.error (("boom").toList)) ⟨[], []⟩ rfl rfl

/-- Claim C5 (amended).  `parseCSS` block ordering: the result is always
the `@keyframes` blocks recovered by the first scanning pass (in their
source order), followed by the `@import` statements and selector/media
blocks recovered by the second pass from the keyframes-stripped text
(in scan order).  Keyframes blocks therefore come first in the result
even when they appear after other rules in the source — the overall
result is *not* in original source order. -/
theorem parseCSS_keyframes_first (src : List Char) (kfs rest : List (List Char))
    (hkf : keyframesMatches (normalizeCssText src) = kfs)
    (hrest : scanImportsAndBlocks (removeKeyframes (normalizeCssText src)) = rest) :
    parseCSS (some src) = kfs ++ rest := by
  show keyframesMatches (normalizeCssText src) ++
    scanImportsAndBlocks (removeKeyframes (normalizeCssText src)) = kfs ++ rest
  rw [hkf, hrest]

/-- Witness for C5: an `@import`, a `@keyframes` block and a plain
selector block interleaved; the keyframes pass finds exactly the
keyframes block, the second pass finds the import and the selector
block, and `parseCSS` returns keyframes first. -/
theorem parseCSS_keyframes_first_witness :
    parseCSS (some (("@import url(a.css); @keyframes k\x7b0%\x7ba:b\x7d100%\x7bc:d\x7d\x7d p\x7bx:y\x7d").toList))
      = [("@keyframes k\x7b0%\x7ba:b\x7d100%\x7bc:d\x7d\x7d").toList] ++
        [("@import url(a.css);").toList, ("  p\x7bx:y\x7d").toList] :=
  parseCSS_keyframes_first
    (("@import url(a.css); @keyframes k\x7b0%\x7ba:b\x7d100%\x7bc:d\x7d\x7d p\x7bx:y\x7d").toList)
    [("@keyframes k\x7b0%\x7ba:b\x7d100%\x7bc:d\x7d\x7d").toList]
    [("@import url(a.css);").toList, ("  p\x7bx:y\x7d").toList]
    (by decide) (by decide)

/-- Counterexample for C5 as stated: on the interleaved source below
(import first, then keyframes, then a selector block) the first
element of the result is the keyframes block, although the `@import`
statement — a different block — is the prefix of the source.  The
recovered blocks are not in original source order. -/
theorem parseCSS_not_source_order :
    parseCSS (some (("@import url(a.css); @keyframes k\x7b0%\x7ba:b\x7d100%\x7bc:d\x7d\x7d p\x7bx:y\x7d").toList))
      = [("@keyframes k\x7b0%\x7ba:b\x7d100%\x7bc:d\x7d\x7d").toList,
        ("@import url(a.css);").toList, ("  p\x7bx:y\x7d").toList]
    ∧ ("@import url(a.css);").toList <+:
        ("@import url(a.css); @keyframes k\x7b0%\x7ba:b\x7d100%\x7bc:d\x7d\x7d p\x7bx:y\x7d").toList
    ∧ ("@keyframes k\x7b0%\x7ba:b\x7d100%\x7bc:d\x7d\x7d").toList
      ≠ ("@import url(a.css);").toList :=
  ⟨by decide, by decide, by decide⟩
